import Mathlib

/-!
Shallow embedding of the generic paginated repository layer of the
ambrosus-node-extended backend: the `BaseRepository` class
(src/src/util/helpers/index.ts, the `base.repository` source) and the
`OrganizationRepository` subclass
(src/src/database/repository/organization.repository.ts).

Documents of the underlying store are modelled as association lists from
field names to values, collections as lists of documents, and each
repository method as a pure function.  A store-side failure of the one
store call a method performs is modelled by an explicit
`Option String` argument (`none` = the call succeeds, `some e` = the
call throws `e`); the method body then mirrors the source's try/catch
structure exactly.
-/

namespace AmbrosusRepo

/-- Modelled from the spec: a document field value (the store's scalar
values as far as the repository layer inspects them — strings, integers
and booleans). -/
inductive Value : Type where
  | str (s : String)
  | int (n : Int)
  | bool (b : Bool)
deriving DecidableEq, Repr

/-- A store document: an association list of field name / value pairs. -/
abbrev Doc : Type := List (String × Value)

/-- A collection of the document store. -/
abbrev Coll : Type := List Doc

/-- A structured filter: field → required value, as the repository's
`apiQuery.query` mapping of equality matchers. -/
abbrev Query : Type := List (String × Value)

/-- Value of field `k` in document `d` (first occurrence wins, as in a
store document whose keys are unique). -/
def getField : Doc → String → Option Value
  | [], _ => none
  | (k', v) :: rest, k => if k' = k then some v else getField rest k

/-- Mongo `$set` on a single field: replace the value in place if the
field is present, append the field otherwise. -/
def setField : Doc → String → Value → Doc
  | [], k, v => [(k, v)]
  | (k', v') :: rest, k, v =>
      if k' = k then (k, v) :: rest else (k', v') :: setField rest k v

/-- Mongo `$set` of a whole field mapping, applied left to right. -/
def setFields : List (String × Value) → Doc → Doc
  | [], d => d
  | (k, v) :: rest, d => setFields rest (setField d k v)

/-- The document matches every equality matcher of the query. -/
def matchesQuery (q : Query) (d : Doc) : Bool :=
  q.all (fun kv => decide (getField d kv.1 = some kv.2))

/-- Error taxonomy of the repository layer: `repository` is the
RepositoryError wrapper (src/src/errors), `developer` is the
DeveloperError raised by the mandatory-override getters, and `store` is
a raw store-client exception that escaped unwrapped. -/
inductive Err : Type where
  | repository (cause : String)
  | developer (reason : String)
  | store (cause : String)
deriving DecidableEq, Repr

/-- True when a result is a failure wrapped as a RepositoryError. -/
def isWrappedAsRepositoryError {α : Type} : Except Err α → Bool
  | .error (.repository _) => true
  | _ => false

/-- Pagination configuration of a repository: `BaseRepository` declares
the getters `paginatedField` / `paginatedAscending` as throwing
DeveloperError unless overridden, so each is an `Except` value. -/
structure RepoConfig where
  paginatedField : Except Err String
  paginatedAscending : Except Err Bool

/-- The un-overridden `BaseRepository` getters
(src/src/util/helpers/index.ts lines 125-131): both throw a
DeveloperError. -/
def baseRepoConfig : RepoConfig :=
  { paginatedField :=
      .error (.developer "paginatedField getter must be overridden!")
    paginatedAscending :=
      .error (.developer "paginatedAscending getter must be overridden!") }

/-- A subclass that did override both getters, with field `pf` and
direction `asc` (e.g. OrganizationRepository uses "createdOn", false). -/
def overriddenRepo (pf : String) (asc : Bool) : RepoConfig :=
  { paginatedField := .ok pf, paginatedAscending := .ok asc }

/-- The OrganizationRepository pagination configuration
(src/src/database/repository/organization.repository.ts lines 21-27). -/
def organizationRepoConfig : RepoConfig := overriddenRepo "createdOn" false

/-- Modelled from the spec: the store's total order on scalar values used
for sorting on the paginated field (booleans before numbers before
strings, each kind ordered naturally). -/
def Value.leB : Value → Value → Bool
  | .bool a, .bool b => !a || b
  | .bool _, .int _ => true
  | .bool _, .str _ => true
  | .int _, .bool _ => false
  | .int a, .int b => decide (a ≤ b)
  | .int _, .str _ => true
  | .str _, .bool _ => false
  | .str _, .int _ => false
  | .str a, .str b => decide (a ≤ b)

theorem Value.leB_total (a b : Value) : a.leB b = true ∨ b.leB a = true := by
  cases a <;> cases b <;> simp [Value.leB]
  case bool.bool x y => cases x <;> cases y <;> simp
  case int.int x y => exact Int.le_total x y
  case str.str x y => exact le_total _ _

theorem Value.leB_trans (a b c : Value) (hab : a.leB b = true)
    (hbc : b.leB c = true) : a.leB c = true := by
  cases a <;> cases b <;> cases c <;> simp_all [Value.leB]
  case bool.bool.bool x y z =>
    cases x <;> cases y <;> cases z <;> simp_all
  case int.int.int x y z => omega
  case str.str.str x y z => exact le_trans hab hbc

/-- Order on optional sort keys: an absent field sorts first. -/
def oleB : Option Value → Option Value → Bool
  | none, _ => true
  | some _, none => false
  | some a, some b => a.leB b

theorem oleB_total (a b : Option Value) : oleB a b = true ∨ oleB b a = true := by
  cases a <;> cases b <;> simp [oleB]
  exact Value.leB_total _ _

theorem oleB_trans (a b c : Option Value) (hab : oleB a b = true)
    (hbc : oleB b c = true) : oleB a c = true := by
  cases a <;> cases b <;> cases c <;> simp_all [oleB]
  exact Value.leB_trans _ _ _ hab hbc

/-- Strict version of `oleB`. -/
def oltB (a b : Option Value) : Bool := oleB a b && !oleB b a

/-- Sort key of a document: the value of the paginated field. -/
def cursorKey (pf : String) (d : Doc) : Option Value := getField d pf

/-- Comparison used by cursor pagination: the paginated field's value,
ascending or descending according to the repository's direction. -/
def docLeB (pf : String) (asc : Bool) (a b : Doc) : Bool :=
  if asc then oleB (cursorKey pf a) (cursorKey pf b)
  else oleB (cursorKey pf b) (cursorKey pf a)

theorem docLeB_total (pf : String) (asc : Bool) (a b : Doc) :
    docLeB pf asc a b = true ∨ docLeB pf asc b a = true := by
  unfold docLeB
  cases asc <;> simp <;> exact oleB_total _ _

theorem docLeB_trans (pf : String) (asc : Bool) (a b c : Doc)
    (hab : docLeB pf asc a b = true) (hbc : docLeB pf asc b c = true) :
    docLeB pf asc a c = true := by
  unfold docLeB at *
  cases asc <;> simp_all
  · exact oleB_trans _ _ _ hbc hab
  · exact oleB_trans _ _ _ hab hbc

/-- Insert a document into a list kept sorted by `le`. -/
def insertSorted (le : Doc → Doc → Bool) (d : Doc) : List Doc → List Doc
  | [] => [d]
  | e :: es => if le d e then d :: e :: es else e :: insertSorted le d es

/-- Insertion sort of a document list by `le` — the model of the sort
stage cursor pagination appends to the store query. -/
def sortDocs (le : Doc → Doc → Bool) (l : List Doc) : List Doc :=
  l.foldr (insertSorted le) []

theorem mem_insertSorted (le : Doc → Doc → Bool) (d x : Doc) (l : List Doc) :
    x ∈ insertSorted le d l ↔ x = d ∨ x ∈ l := by
  induction l with
  | nil => simp [insertSorted]
  | cons e es ih =>
    simp only [insertSorted]
    split
    · simp [or_comm, or_assoc, or_left_comm]
    · simp [ih]
      tauto

theorem pairwise_insertSorted (le : Doc → Doc → Bool)
    (htot : ∀ a b, le a b = true ∨ le b a = true)
    (htrans : ∀ a b c, le a b = true → le b c = true → le a c = true)
    (d : Doc) (l : List Doc) (h : l.Pairwise (fun a b => le a b = true)) :
    (insertSorted le d l).Pairwise (fun a b => le a b = true) := by
  induction l with
  | nil => simp [insertSorted]
  | cons e es ih =>
    rw [List.pairwise_cons] at h
    obtain ⟨he, hes⟩ := h
    simp only [insertSorted]
    split
    case isTrue hde =>
      rw [List.pairwise_cons]
      refine ⟨?_, by rw [List.pairwise_cons]; exact ⟨he, hes⟩⟩
      intro x hx
      rw [List.mem_cons] at hx
      rcases hx with rfl | hx
      · exact hde
      · exact htrans _ _ _ hde (he x hx)
    case isFalse hde =>
      have hed : le e d = true := by
        rcases htot d e with h1 | h1
        · exact absurd h1 hde
        · exact h1
      rw [List.pairwise_cons]
      refine ⟨?_, ih hes⟩
      intro x hx
      rw [mem_insertSorted] at hx
      rcases hx with rfl | hx
      · exact hed
      · exact he x hx

theorem pairwise_sortDocs (le : Doc → Doc → Bool)
    (htot : ∀ a b, le a b = true ∨ le b a = true)
    (htrans : ∀ a b c, le a b = true → le b c = true → le a c = true)
    (l : List Doc) :
    (sortDocs le l).Pairwise (fun a b => le a b = true) := by
  induction l with
  | nil => simp [sortDocs]
  | cons d ds ih => exact pairwise_insertSorted le htot htrans d _ ih

theorem mem_sortDocs (le : Doc → Doc → Bool) (x : Doc) (l : List Doc) :
    x ∈ sortDocs le l ↔ x ∈ l := by
  induction l with
  | nil => simp [sortDocs]
  | cons d ds ih =>
    show x ∈ insertSorted le d (sortDocs le ds) ↔ _
    rw [mem_insertSorted, ih]
    simp

/-- Mongo inclusion projection applied to a document: an empty
projection specification returns the whole document, a non-empty one
keeps exactly the listed fields. -/
def applyProjOpt : Option (List String) → Doc → Doc
  | none, d => d
  | some fs, d => if fs.isEmpty then d else d.filter (fun kv => decide (kv.1 ∈ fs))

/-- Projection argument built by `BaseRepository.find`
(src/src/util/helpers/index.ts lines 420-422): a projection is passed
if and only if `apiQuery.fields` has at least one key. -/
def findProjectionArg (fields : List String) : Option (List String) :=
  if fields.length ≠ 0 then some fields else none

/-- Projection argument passed by `BaseRepository.findOne`
(line 454): always `apiQuery.fields`, even when empty. -/
def findOneProjectionArg (fields : List String) : Option (List String) :=
  some fields

/-- Opaque cursor token, modelled as the encoded sort-key value (the
exact encoding is an implementation detail of the pagination library). -/
abbrev Cursor : Type := Option Value

/-- The normalized API query consumed by the repository layer.
Modelled from the spec: the APIQuery model class is not among the given
sources; per spec §3 it holds a field→matcher mapping with unique string
keys, a projection spec, an optional search term, a limit, and at most
one of the two cursor tokens. -/
structure APIQuery where
  query : Query
  fields : List String
  search : String
  limit : Nat
  next : Option Cursor
  previous : Option Cursor

/-- Paged result envelope returned by the pagination library. -/
structure MongoPagedResult where
  results : List Doc
  hasNext : Bool
  hasPrevious : Bool
  next : Option Cursor
  previous : Option Cursor

/-- Cursor window of one page: after the `next` cursor (or before the
`previous` cursor, or from the start), at most `limit` documents of the
sorted matched sequence, kept in sort order. -/
def pageWindow (key : Doc → Option Value) (asc : Bool) (limit : Nat)
    (next previous : Option Cursor) (sorted : List Doc) : List Doc :=
  let after : Cursor → Doc → Bool := fun c d =>
    if asc then oltB c (key d) else oltB (key d) c
  let before : Cursor → Doc → Bool := fun c d =>
    if asc then oltB (key d) c else oltB c (key d)
  match next with
  | some c => (sorted.filter (after c)).take limit
  | none =>
      match previous with
      | some c => (((sorted.filter (before c)).reverse).take limit).reverse
      | none => sorted.take limit

/-- Modelled from the spec: the pagination library's `find` — filter by
the structured query, sort by the paginated field in the requested
direction, window by cursor and limit, then project. -/
def mongoPagingFind (coll : Coll) (q : Query) (proj : Option (List String))
    (pf : String) (asc : Bool) (limit : Nat)
    (next previous : Option Cursor) : MongoPagedResult :=
  let sorted := sortDocs (docLeB pf asc) (coll.filter (fun d => matchesQuery q d))
  let page := pageWindow (cursorKey pf) asc limit next previous sorted
  { results := page.map (applyProjOpt proj)
    hasNext :=
      decide ((pageWindow (cursorKey pf) asc (limit + 1) next previous sorted).length
        > limit)
    hasPrevious := next.isSome
    next := (page.getLast?).map (cursorKey pf)
    previous := (page.head?).map (cursorKey pf) }

/-- Modelled from the spec: the pagination library's `aggregate` — the
pipeline's output (taken here as an abstract document list, the pipeline
itself being opaque to the repository) is sorted by the paginated field
and windowed by cursor and limit. -/
def mongoPagingAggregate (pipelineOut : List Doc) (pf : String) (asc : Bool)
    (limit : Nat) (next previous : Option Cursor) : MongoPagedResult :=
  let sorted := sortDocs (docLeB pf asc) pipelineOut
  let page := pageWindow (cursorKey pf) asc limit next previous sorted
  { results := page
    hasNext :=
      decide ((pageWindow (cursorKey pf) asc (limit + 1) next previous sorted).length
        > limit)
    hasPrevious := next.isSome
    next := (page.getLast?).map (cursorKey pf)
    previous := (page.head?).map (cursorKey pf) }

/-- Comparison by descending relevance score. -/
def scoreDescLeB (score : Doc → Int) (a b : Doc) : Bool :=
  decide (score b ≤ score a)

/-- Modelled from the spec: the pagination library's `search` — filter
by full-text match and the structured query, sort by descending
relevance score, window by cursor and limit.  The paginated field plays
no part: the caller passes none to this entry point. -/
def mongoPagingSearch (matchesText : Doc → Bool) (score : Doc → Int)
    (coll : Coll) (q : Query) (limit : Nat)
    (next previous : Option Cursor) : MongoPagedResult :=
  let matched := coll.filter (fun d => matchesText d && matchesQuery q d)
  let sorted := sortDocs (scoreDescLeB score) matched
  let key : Doc → Option Value := fun d => some (.int (score d))
  let page := pageWindow key false limit next previous sorted
  { results := page
    hasNext :=
      decide ((pageWindow key false (limit + 1) next previous sorted).length > limit)
    hasPrevious := next.isSome
    next := (page.getLast?).map key
    previous := (page.head?).map key }

/-! Repository methods.  Each mirrors one `BaseRepository` method: the
`fail` argument is the outcome of the method's store call (`some e`
models the store client throwing `e`); the `catch (err) { throw new
RepositoryError(err) }` block of the source becomes the `some e =>
.error (.repository e)` branch. -/

/-- Acknowledgment of a single-document insert (`insertedCount`). -/
structure InsertOneAck where
  insertedCount : Nat
deriving DecidableEq, Repr

/-- BaseRepository.create (lines 142-159): single insert, failures
wrapped as RepositoryError. -/
def createM (item : Doc) (coll : Coll) (fail : Option String) :
    Except Err (Coll × InsertOneAck) :=
  match fail with
  | some e => .error (.repository e)
  | none => .ok (coll ++ [item], ⟨1⟩)

/-- The store's `insertMany`: inserts the documents the store accepts
(`acceptable` models store-side constraints such as unique indices) and
reports how many were actually inserted. -/
def insertMany (acceptable : Doc → Bool) (coll : Coll) (items : List Doc) :
    Coll × Nat :=
  (coll ++ items.filter acceptable, (items.filter acceptable).length)

/-- BaseRepository.createBulk (lines 161-178): multi insert returning
`result.result.n`, failures wrapped as RepositoryError. -/
def createBulkM (acceptable : Doc → Bool) (items : List Doc) (coll : Coll)
    (fail : Option String) : Except Err (Coll × Nat) :=
  match fail with
  | some e => .error (.repository e)
  | none => .ok (insertMany acceptable coll items)

/-- A Mongo update document as used by this repository: `$set` or
`$setOnInsert` of a field mapping. -/
inductive UpdateOp : Type where
  | set (fields : List (String × Value))
  | setOnInsert (fields : List (String × Value))

/-- Effect of the update document on an existing matched document:
`$set` overwrites the listed fields, `$setOnInsert` changes nothing. -/
def UpdateOp.applyToExisting : UpdateOp → Doc → Doc
  | .set fs, d => setFields fs d
  | .setOnInsert _, d => d

/-- Effect of the update document on the document a Mongo upsert builds
from the filter's equality matchers. -/
def UpdateOp.applyOnInsert : UpdateOp → Doc → Doc
  | .set fs, d => setFields fs d
  | .setOnInsert fs, d => setFields fs d

/-- Replace the first document satisfying `p` by its image under `f`. -/
def updateFirstMatch (p : Doc → Bool) (f : Doc → Doc) : Coll → Coll
  | [] => []
  | d :: ds => if p d then f d :: ds else d :: updateFirstMatch p f ds

/-- The store's `findOneAndUpdate` with `returnOriginal: false` (the
only mode this repository uses): update the first match in place, or on
upsert build a new document from the filter's equality matchers, apply
the update document, and append it; return the post-update document. -/
def findOneAndUpdatePure (q : Query) (upd : UpdateOp) (upsert : Bool)
    (coll : Coll) : Option Doc × Coll :=
  match coll.find? (fun d => matchesQuery q d) with
  | some d =>
      (some (upd.applyToExisting d),
       updateFirstMatch (fun d => matchesQuery q d) upd.applyToExisting coll)
  | none =>
      if upsert then
        let newDoc := upd.applyOnInsert q
        (some newDoc, coll ++ [newDoc])
      else (none, coll)

/-- BaseRepository.update (lines 180-205): `findOneAndUpdate` with
`$set: item`, upsert iff `create`, post-update document returned,
failures wrapped as RepositoryError. -/
def updateM (q : Query) (item : List (String × Value)) (create : Bool)
    (coll : Coll) (fail : Option String) : Except Err (Option Doc × Coll) :=
  match fail with
  | some e => .error (.repository e)
  | none => .ok (findOneAndUpdatePure q (.set item) create coll)

/-- Pure core of `update` (the store succeeding). -/
def updatePure (q : Query) (item : List (String × Value)) (create : Bool)
    (coll : Coll) : Option Doc × Coll :=
  findOneAndUpdatePure q (.set item) create coll

/-- Remove the first document satisfying `p`. -/
def deleteFirstMatch (p : Doc → Bool) : Coll → Coll
  | [] => []
  | d :: ds => if p d then ds else d :: deleteFirstMatch p ds

/-- BaseRepository.deleteOne (lines 207-225): removes at most one
matching document, failures wrapped as RepositoryError. -/
def deleteOneM (q : Query) (coll : Coll) (fail : Option String) :
    Except Err Coll :=
  match fail with
  | some e => .error (.repository e)
  | none => .ok (deleteFirstMatch (fun d => matchesQuery q d) coll)

/-- BaseRepository.count (lines 227-237): `countDocuments`, failures
wrapped as RepositoryError. -/
def countM (q : Query) (coll : Coll) (fail : Option String) :
    Except Err Nat :=
  match fail with
  | some e => .error (.repository e)
  | none => .ok ((coll.filter (fun d => matchesQuery q d)).length)

/-- BaseRepository.aggregatePaging (lines 241-270): reads the two
pagination getters (the debug log interpolates them before the try
block, so a DeveloperError propagates uncaught), then calls the
pagination library's aggregate; store failures wrapped as
RepositoryError. -/
def aggregatePagingM (cfg : RepoConfig) (pipelineOut : List Doc)
    (limit : Nat) (next previous : Option Cursor) (fail : Option String) :
    Except Err MongoPagedResult := do
  let pf ← cfg.paginatedField
  let asc ← cfg.paginatedAscending
  match fail with
  | some e => .error (.repository e)
  | none => .ok (mongoPagingAggregate pipelineOut pf asc limit next previous)

/-- BaseRepository.aggregate (lines 272-290): unpaginated aggregation,
the pipeline's full output materialized; failures wrapped as
RepositoryError. -/
def aggregateM (pipelineOut : List Doc) (fail : Option String) :
    Except Err (List Doc) :=
  match fail with
  | some e => .error (.repository e)
  | none => .ok pipelineOut

/-- BaseRepository.exists (lines 292-314): fails fast with a
RepositoryError when the query mapping has no keys — before any store
query runs — and otherwise reports whether the store's
`find(query).limit(1)` returned a document.  The second component
counts the store queries the call executed. -/
def existsM (q : Query) (coll : Coll) (fail : Option String) :
    Except Err Bool × Nat :=
  if (q.map Prod.fst).length = 0 then
    (.error (.repository "Invalid query for exists"), 0)
  else
    match fail with
    | some e => (.error (.repository e), 1)
    | none =>
        (.ok (decide (((coll.filter (fun d => matchesQuery q d)).take 1).length > 0)),
         1)

/-- The OR-clause list built by `existsOR` (lines 319-328): one clause
per listed field that is a property of `obj`, in listed order. -/
def buildOrClauses (obj : Doc) (fields : List String) : List (String × Value) :=
  fields.foldl
    (fun rv f =>
      match getField obj f with
      | some v => rv ++ [(f, v)]
      | none => rv)
    []

/-- A document satisfies the `$or` of the clause list. -/
def matchesOr (clauses : List (String × Value)) (d : Doc) : Bool :=
  clauses.any (fun kv => decide (getField d kv.1 = some kv.2))

/-- BaseRepository.existsOR (lines 316-349): builds the OR-query from
the fields present on `obj`, rejects an empty clause list with a
RepositoryError, and otherwise reports whether the store's
`find({$or}).limit(1)` returned a document. -/
def existsOrM (obj : Doc) (fields : List String) (coll : Coll)
    (fail : Option String) : Except Err Bool :=
  if (buildOrClauses obj fields).length = 0 then
    .error (.repository "Invalid query for existsOR")
  else
    match fail with
    | some e => .error (.repository e)
    | none =>
        .ok (decide (((coll.filter
          (fun d => matchesOr (buildOrClauses obj fields) d)).take 1).length > 0))

/-- BaseRepository.distinct (lines 351-368): distinct values of a
field, failures wrapped as RepositoryError. -/
def distinctM (field : String) (coll : Coll) (fail : Option String) :
    Except Err (List Value) :=
  match fail with
  | some e => .error (.repository e)
  | none => .ok ((coll.filterMap (fun d => getField d field)).dedup)

/-- BaseRepository.search (lines 370-401): reads the two pagination
getters for the debug log (outside the try block) but passes NEITHER to
the pagination library — the search call receives only the term, the
structured query, the fields, the limit and the cursors; store failures
wrapped as RepositoryError. -/
def searchM (cfg : RepoConfig) (matchesText : String → Doc → Bool)
    (score : String → Doc → Int) (aq : APIQuery) (coll : Coll)
    (fail : Option String) : Except Err MongoPagedResult := do
  let _pf ← cfg.paginatedField
  let _asc ← cfg.paginatedAscending
  match fail with
  | some e => .error (.repository e)
  | none =>
      .ok (mongoPagingSearch (matchesText aq.search) (score aq.search) coll
        aq.query aq.limit aq.next aq.previous)

/-- BaseRepository.find (lines 403-439): reads the two pagination
getters (debug log, before the try block), builds the conditional
projection argument, and calls the pagination library's find; store
failures wrapped as RepositoryError. -/
def findM (cfg : RepoConfig) (aq : APIQuery) (coll : Coll)
    (fail : Option String) : Except Err MongoPagedResult := do
  let pf ← cfg.paginatedField
  let asc ← cfg.paginatedAscending
  match fail with
  | some e => .error (.repository e)
  | none =>
      .ok (mongoPagingFind coll aq.query (findProjectionArg aq.fields) pf asc
        aq.limit aq.next aq.previous)

/-- BaseRepository.findOne (lines 441-470): first match under the
filter, always projected by `apiQuery.fields`; store failures wrapped
as RepositoryError. -/
def findOneM (aq : APIQuery) (coll : Coll) (fail : Option String) :
    Except Err (Option Doc) :=
  match fail with
  | some e => .error (.repository e)
  | none =>
      .ok ((((coll.filter (fun d => matchesQuery aq.query d)).take 1).map
        (applyProjOpt (findOneProjectionArg aq.fields))).head?)

/-- Pure core of `findOneOrCreate`: `findOneAndUpdate` with
`$setOnInsert: { createdOn: ts, createdBy: createUser }`, upsert true,
post-update document returned (`ts` models `getTimestamp()` at the
moment of the call). -/
def findOneOrCreatePure (q : Query) (createUser : String) (ts : Int)
    (coll : Coll) : Option Doc × Coll :=
  findOneAndUpdatePure q
    (.setOnInsert [("createdOn", .int ts), ("createdBy", .str createUser)])
    true coll

/-- BaseRepository.findOneOrCreate (lines 472-497): failures wrapped as
RepositoryError. -/
def findOneOrCreateM (q : Query) (createUser : String) (ts : Int)
    (coll : Coll) (fail : Option String) : Except Err (Option Doc × Coll) :=
  match fail with
  | some e => .error (.repository e)
  | none => .ok (findOneOrCreatePure q createUser ts coll)

/-- Pure core of OrganizationRepository.getNewOrganizationIdentifier:
atomic `$inc` by the fixed step 9 on the counter document with
`returnOriginal: false`, returning (new counter state, minted id). -/
def orgIdStep (counter : Nat) : Nat × Nat := (counter + 9, counter + 9)

/-- OrganizationRepository.getNewOrganizationIdentifier
(src/src/database/repository/organization.repository.ts lines 29-39):
the store `findOneAndUpdate` is NOT inside a try/catch, so a store
failure propagates as the raw store exception, not as a
RepositoryError. -/
def getNewOrganizationIdentifierM (counter : Nat) (fail : Option String) :
    Except Err (Nat × Nat) :=
  match fail with
  | some e => .error (.store e)
  | none => .ok (orgIdStep counter)

/-- Result of `n` sequential successful calls of
`getNewOrganizationIdentifier` from counter state `c0`: final counter
state and the list of minted identifiers in call order. -/
def runOrgCalls (c0 : Nat) : Nat → Nat × List Nat
  | 0 => (c0, [])
  | n + 1 =>
      let (c1, ids) := runOrgCalls c0 n
      let (c2, id) := orgIdStep c1
      (c2, ids ++ [id])

/-! Helper lemmas about documents and field updates. -/

theorem getField_setField_self (d : Doc) (k : String) (v : Value) :
    getField (setField d k v) k = some v := by
  induction d with
  | nil => simp [setField, getField]
  | cons kv rest ih =>
    obtain ⟨k', v'⟩ := kv
    by_cases h : k' = k <;> simp [setField, getField, h, ih]

theorem getField_setField_ne (d : Doc) (k k2 : String) (v : Value)
    (h : k2 ≠ k) : getField (setField d k2 v) k = getField d k := by
  induction d with
  | nil => simp [setField, getField, h]
  | cons kv rest ih =>
    obtain ⟨k', v'⟩ := kv
    simp only [setField]
    by_cases h' : k' = k2
    · rw [if_pos h']
      subst h'
      simp [getField, h]
    · rw [if_neg h']
      by_cases h'' : k' = k <;> simp [getField, h'', ih]

theorem getField_setFields_not_mem (item : List (String × Value)) (d : Doc)
    (k : String) (h : k ∉ item.map Prod.fst) :
    getField (setFields item d) k = getField d k := by
  induction item generalizing d with
  | nil => simp [setFields]
  | cons kv rest ih =>
    simp only [List.map_cons, List.mem_cons] at h
    push_neg at h
    obtain ⟨h1, h2⟩ := h
    simp only [setFields]
    rw [ih _ h2, getField_setField_ne _ _ _ _ (fun he => h1 he.symm)]

theorem getField_setFields_mem (item : List (String × Value)) (d : Doc)
    (k : String) (v : Value) (hmem : (k, v) ∈ item)
    (hnd : (item.map Prod.fst).Nodup) :
    getField (setFields item d) k = some v := by
  induction item generalizing d with
  | nil => simp at hmem
  | cons kv rest ih =>
    obtain ⟨k0, v0⟩ := kv
    simp only [List.map_cons, List.nodup_cons] at hnd
    obtain ⟨hk, hnd⟩ := hnd
    simp only [setFields]
    rcases List.mem_cons.mp hmem with heq | hmem
    · injection heq with h1 h2
      subst h1
      subst h2
      rw [getField_setFields_not_mem _ _ _ hk, getField_setField_self]
    · exact ih _ hmem hnd

theorem getField_eq_none_of_not_mem (d : Doc) (k : String)
    (h : k ∉ d.map Prod.fst) : getField d k = none := by
  induction d with
  | nil => simp [getField]
  | cons kv rest ih =>
    obtain ⟨k', v'⟩ := kv
    simp only [List.map_cons, List.mem_cons] at h
    push_neg at h
    have hne : k' ≠ k := fun he => h.1 he.symm
    simp [getField, hne, ih h.2]

theorem getField_of_mem_nodup (d : Doc) (k : String) (v : Value)
    (hmem : (k, v) ∈ d) (hnd : (d.map Prod.fst).Nodup) :
    getField d k = some v := by
  induction d with
  | nil => simp at hmem
  | cons kv rest ih =>
    obtain ⟨k', v'⟩ := kv
    simp only [List.map_cons, List.nodup_cons] at hnd
    rcases List.mem_cons.mp hmem with heq | hmem'
    · injection heq with h1 h2
      subst h1
      subst h2
      simp [getField]
    · have hne : k' ≠ k := by
        intro he
        refine hnd.1 ?_
        rw [he]
        exact List.mem_map.mpr ⟨(k, v), hmem', rfl⟩
      simp only [getField, if_neg hne]
      exact ih hmem' hnd.2

theorem setField_append_of_none (d : Doc) (k : String) (v : Value)
    (h : getField d k = none) : setField d k v = d ++ [(k, v)] := by
  induction d with
  | nil => simp [setField]
  | cons kv rest ih =>
    obtain ⟨k', v'⟩ := kv
    by_cases h' : k' = k
    · simp [getField, h'] at h
    · simp only [getField, if_neg h'] at h
      simp [setField, h', ih h]

theorem getField_append_left (d l2 : Doc) (k : String) (v : Value)
    (h : getField d k = some v) : getField (d ++ l2) k = some v := by
  induction d with
  | nil => simp [getField] at h
  | cons kv rest ih =>
    obtain ⟨k', v'⟩ := kv
    by_cases h' : k' = k <;> simp_all [getField]

theorem updateFirstMatch_id (p : Doc → Bool) (f : Doc → Doc)
    (hf : ∀ d, f d = d) (l : Coll) : updateFirstMatch p f l = l := by
  induction l with
  | nil => rfl
  | cons d ds ih =>
    simp only [updateFirstMatch]
    split <;> simp [hf, ih]

theorem find?_append_none {α : Type} (p : α → Bool) (l1 l2 : List α)
    (h : l1.find? p = none) : (l1 ++ l2).find? p = l2.find? p := by
  induction l1 with
  | nil => rfl
  | cons a l ih =>
    cases hpa : p a with
    | true =>
      rw [List.find?_cons_of_pos _ hpa] at h
      exact absurd h (by simp)
    | false =>
      rw [List.find?_cons_of_neg _ (by simp [hpa])] at h
      rw [List.cons_append, List.find?_cons_of_neg _ (by simp [hpa])]
      exact ih h

theorem updateFirstMatch_append_of_none (p : Doc → Bool) (f : Doc → Doc)
    (l1 l2 : Coll) (h : l1.find? p = none) :
    updateFirstMatch p f (l1 ++ l2) = l1 ++ updateFirstMatch p f l2 := by
  induction l1 with
  | nil => rfl
  | cons d ds ih =>
    cases hpd : p d with
    | true =>
      rw [List.find?_cons_of_pos _ hpd] at h
      exact absurd h (by simp)
    | false =>
      rw [List.find?_cons_of_neg _ (by simp [hpd])] at h
      simp [updateFirstMatch, hpd, ih h]

/-! Helper lemmas about projections and sort keys. -/

theorem getField_filter_mem (fs : List String) (d : Doc) (k : String)
    (h : k ∈ fs) :
    getField (d.filter (fun kv => decide (kv.1 ∈ fs))) k = getField d k := by
  induction d with
  | nil => rfl
  | cons kv rest ih =>
    obtain ⟨k', v'⟩ := kv
    by_cases hk : k' = k
    · subst hk
      simp [List.filter_cons, h, getField]
    · by_cases hc : k' ∈ fs <;> simp [List.filter_cons, hc, getField, hk, ih]

theorem getField_filter_not_mem (fs : List String) (d : Doc) (k : String)
    (h : k ∉ fs) :
    getField (d.filter (fun kv => decide (kv.1 ∈ fs))) k = none := by
  induction d with
  | nil => rfl
  | cons kv rest ih =>
    obtain ⟨k', v'⟩ := kv
    by_cases hc : k' ∈ fs
    · have hk : k' ≠ k := fun he => h (he ▸ hc)
      simp [List.filter_cons, hc, getField, hk, ih]
    · simp [List.filter_cons, hc, ih]

/-! Sortedness of paged results. -/

/-- Decidable sortedness of a document list under `le`: every element
is `le`-below all later elements. -/
def isSortedBy (le : Doc → Doc → Bool) : List Doc → Bool
  | [] => true
  | d :: ds => ds.all (le d) && isSortedBy le ds

theorem isSortedBy_iff_pairwise (le : Doc → Doc → Bool) (l : List Doc) :
    isSortedBy le l = true ↔ l.Pairwise (fun a b => le a b = true) := by
  induction l with
  | nil => simp [isSortedBy]
  | cons d ds ih =>
    simp [isSortedBy, List.pairwise_cons, ih, List.all_eq_true, and_comm]

theorem pairwise_of_forall_rel {R : Doc → Doc → Prop} (h : ∀ a b, R a b)
    (l : List Doc) : l.Pairwise R := by
  induction l with
  | nil => exact List.Pairwise.nil
  | cons d ds ih => exact List.Pairwise.cons (fun x _ => h d x) ih

theorem pageWindow_length_le (key : Doc → Option Value) (asc : Bool)
    (limit : Nat) (next previous : Option Cursor) (sorted : List Doc) :
    (pageWindow key asc limit next previous sorted).length ≤ limit := by
  unfold pageWindow
  cases next with
  | some c => simp
  | none =>
    cases previous with
    | some c => simp
    | none => simp

theorem pageWindow_sublist (key : Doc → Option Value) (asc : Bool)
    (limit : Nat) (next previous : Option Cursor) (sorted : List Doc) :
    (pageWindow key asc limit next previous sorted).Sublist sorted := by
  have hrev : ∀ f : List Doc, f.Sublist sorted →
      ((f.reverse.take limit).reverse).Sublist sorted := by
    intro f hf
    have h2 := (List.take_sublist limit f.reverse).reverse
    rw [List.reverse_reverse] at h2
    exact h2.trans hf
  cases next with
  | some c =>
    exact (List.take_sublist _ _).trans (List.filter_sublist _)
  | none =>
    cases previous with
    | some c => exact hrev _ (List.filter_sublist _)
    | none => exact List.take_sublist _ _

theorem pairwise_pageWindow (key : Doc → Option Value) (pf : String)
    (asc : Bool) (limit : Nat) (next previous : Option Cursor) (l : List Doc) :
    (pageWindow key asc limit next previous
        (sortDocs (docLeB pf asc) l)).Pairwise
      (fun a b => docLeB pf asc a b = true) := by
  have hs := pairwise_sortDocs (docLeB pf asc) (docLeB_total pf asc)
    (docLeB_trans pf asc) l
  exact hs.sublist (pageWindow_sublist key asc limit next previous _)

theorem cursorKey_applyProjOpt (pf : String) (proj : Option (List String))
    (d : Doc) :
    cursorKey pf (applyProjOpt proj d) = cursorKey pf d ∨
      cursorKey pf (applyProjOpt proj d) = none := by
  cases proj with
  | none => exact Or.inl rfl
  | some fs =>
    by_cases he : fs.isEmpty
    · exact Or.inl (by simp [applyProjOpt, he])
    · by_cases hm : pf ∈ fs
      · exact Or.inl (by
          simp only [applyProjOpt, if_neg he]
          exact getField_filter_mem fs d pf hm)
      · exact Or.inr (by
          simp only [applyProjOpt, if_neg he]
          exact getField_filter_not_mem fs d pf hm)

theorem pairwise_map_applyProjOpt (pf : String) (asc : Bool)
    (proj : Option (List String)) (page : List Doc)
    (h : page.Pairwise (fun a b => docLeB pf asc a b = true)) :
    (page.map (applyProjOpt proj)).Pairwise
      (fun a b => docLeB pf asc a b = true) := by
  cases proj with
  | none =>
    have hfun : applyProjOpt none = fun d => d := rfl
    have : page.map (applyProjOpt none) = page := by
      rw [hfun]
      simp
    rwa [this]
  | some fs =>
    by_cases he : fs.isEmpty
    · have hfun : applyProjOpt (some fs) = fun d => d := by
        funext d
        simp [applyProjOpt, he]
      have : page.map (applyProjOpt (some fs)) = page := by
        rw [hfun]
        simp
      rwa [this]
    · by_cases hm : pf ∈ fs
      · rw [List.pairwise_map]
        refine h.imp ?_
        intro a b hab
        have ha : cursorKey pf (applyProjOpt (some fs) a) = cursorKey pf a := by
          simp only [applyProjOpt, if_neg he]
          exact getField_filter_mem fs a pf hm
        have hb : cursorKey pf (applyProjOpt (some fs) b) = cursorKey pf b := by
          simp only [applyProjOpt, if_neg he]
          exact getField_filter_mem fs b pf hm
        unfold docLeB at *
        rw [ha, hb]
        exact hab
      · rw [List.pairwise_map]
        refine pairwise_of_forall_rel ?_ page
        intro a b
        have ha : cursorKey pf (applyProjOpt (some fs) a) = none := by
          simp only [applyProjOpt, if_neg he]
          exact getField_filter_not_mem fs a pf hm
        have hb : cursorKey pf (applyProjOpt (some fs) b) = none := by
          simp only [applyProjOpt, if_neg he]
          exact getField_filter_not_mem fs b pf hm
        unfold docLeB
        rw [ha, hb]
        cases asc <;> simp [oleB]

/-- Length and order specification of the library's paginated find:
at most `limit` results, in paginated-field order. -/
theorem mongoPagingFind_spec (coll : Coll) (q : Query)
    (proj : Option (List String)) (pf : String) (asc : Bool) (limit : Nat)
    (next previous : Option Cursor) :
    (mongoPagingFind coll q proj pf asc limit next previous).results.length
        ≤ limit ∧
      isSortedBy (docLeB pf asc)
        (mongoPagingFind coll q proj pf asc limit next previous).results
        = true := by
  unfold mongoPagingFind
  constructor
  · simpa using pageWindow_length_le (cursorKey pf) asc limit next previous _
  · rw [isSortedBy_iff_pairwise]
    exact pairwise_map_applyProjOpt pf asc _ _
      (pairwise_pageWindow (cursorKey pf) pf asc limit next previous _)

/-- Length and order specification of the library's paginated
aggregation, for any pipeline output. -/
theorem mongoPagingAggregate_spec (pipelineOut : List Doc) (pf : String)
    (asc : Bool) (limit : Nat) (next previous : Option Cursor) :
    (mongoPagingAggregate pipelineOut pf asc limit next previous).results.length
        ≤ limit ∧
      isSortedBy (docLeB pf asc)
        (mongoPagingAggregate pipelineOut pf asc limit next previous).results
        = true := by
  unfold mongoPagingAggregate
  constructor
  · simpa using pageWindow_length_le (cursorKey pf) asc limit next previous _
  · rw [isSortedBy_iff_pairwise]
    exact pairwise_pageWindow (cursorKey pf) pf asc limit next previous _

theorem scoreDescLeB_total (score : Doc → Int) (a b : Doc) :
    scoreDescLeB score a b = true ∨ scoreDescLeB score b a = true := by
  unfold scoreDescLeB
  simp
  omega

theorem scoreDescLeB_trans (score : Doc → Int) (a b c : Doc)
    (hab : scoreDescLeB score a b = true) (hbc : scoreDescLeB score b c = true) :
    scoreDescLeB score a c = true := by
  unfold scoreDescLeB at *
  simp_all
  omega

/-- Length and order specification of the library's search: at most
`limit` results, in descending relevance-score order. -/
theorem mongoPagingSearch_spec (matchesText : Doc → Bool) (score : Doc → Int)
    (coll : Coll) (q : Query) (limit : Nat) (next previous : Option Cursor) :
    (mongoPagingSearch matchesText score coll q limit next previous).results.length
        ≤ limit ∧
      isSortedBy (scoreDescLeB score)
        (mongoPagingSearch matchesText score coll q limit next previous).results
        = true := by
  unfold mongoPagingSearch
  constructor
  · simpa using
      pageWindow_length_le (fun d => some (.int (score d))) false limit next
        previous _
  · rw [isSortedBy_iff_pairwise]
    have hs := pairwise_sortDocs (scoreDescLeB score) (scoreDescLeB_total score)
      (scoreDescLeB_trans score)
      (coll.filter (fun d => matchesText d && matchesQuery q d))
    exact hs.sublist (pageWindow_sublist (fun d => some (.int (score d))) false
      limit next previous _)

/-! Claim C5. -/

/-- C5: a repository subclass that does not override `paginatedField` or
`paginatedAscending` gets, on the first access to the missing accessor
(in particular during any paginated operation), a DeveloperError —
deterministically, never a default value — and the DeveloperError kind
is distinct from RepositoryError. -/
theorem claim5_missing_override_developer_error :
    baseRepoConfig.paginatedField =
        .error (.developer "paginatedField getter must be overridden!") ∧
      baseRepoConfig.paginatedAscending =
        .error (.developer "paginatedAscending getter must be overridden!") ∧
      (∀ (aq : APIQuery) (coll : Coll) (fail : Option String),
        findM baseRepoConfig aq coll fail =
          .error (.developer "paginatedField getter must be overridden!")) ∧
      (∀ (pipelineOut : List Doc) (limit : Nat)
          (next previous : Option Cursor) (fail : Option String),
        aggregatePagingM baseRepoConfig pipelineOut limit next previous fail =
          .error (.developer "paginatedField getter must be overridden!")) ∧
      (∀ (mt : String → Doc → Bool) (score : String → Doc → Int)
          (aq : APIQuery) (coll : Coll) (fail : Option String),
        searchM baseRepoConfig mt score aq coll fail =
          .error (.developer "paginatedField getter must be overridden!")) ∧
      (∀ r m, Err.developer r ≠ Err.repository m) := by
  refine ⟨rfl, rfl, fun _ _ _ => rfl, fun _ _ _ _ _ => rfl,
    fun _ _ _ _ _ => rfl, ?_⟩
  intro r m h
  exact Err.noConfusion h

/-! Claim C7. -/

theorem runOrgCalls_fst (c0 n : Nat) : (runOrgCalls c0 n).1 = c0 + 9 * n := by
  induction n with
  | zero => simp [runOrgCalls]
  | succ n ih =>
    simp only [runOrgCalls, orgIdStep, ih]
    omega

theorem runOrgCalls_snd (c0 n : Nat) :
    (runOrgCalls c0 n).2 = (List.range n).map (fun i => c0 + 9 * (i + 1)) := by
  induction n with
  | zero => simp [runOrgCalls]
  | succ n ih =>
    simp only [runOrgCalls, orgIdStep, ih, List.range_succ, List.map_append,
      List.map_cons, List.map_nil]
    rw [runOrgCalls_fst]
    simp
    omega

/-- C7: `getNewOrganizationIdentifier` mints identifiers by atomic
increment-and-return with a fixed step of 9: from counter state 0, two
sequential calls return 9 then 18, and sequential calls never return
the same identifier twice (the minted sequence is strictly
increasing). -/
theorem claim7_org_identifier_step9_monotone :
    (runOrgCalls 0 2).2 = [9, 18] ∧
      (∀ c : Nat, getNewOrganizationIdentifierM c none = .ok (c + 9, c + 9)) ∧
      (∀ c0 n : Nat,
        (runOrgCalls c0 n).2 = (List.range n).map (fun i => c0 + 9 * (i + 1))) ∧
      (∀ c0 n : Nat, ((runOrgCalls c0 n).2).Pairwise (· < ·)) ∧
      (∀ c0 n : Nat, ((runOrgCalls c0 n).2).Nodup) := by
  have hpw : ∀ c0 n : Nat, ((runOrgCalls c0 n).2).Pairwise (· < ·) := by
    intro c0 n
    rw [runOrgCalls_snd]
    rw [List.pairwise_map]
    refine (List.pairwise_lt_range n).imp ?_
    intro i j hij
    omega
  refine ⟨rfl, fun _ => rfl, runOrgCalls_snd, hpw, ?_⟩
  intro c0 n
  exact (hpw c0 n).imp (fun h => Nat.ne_of_lt h)

/-! Claim C8. -/

/-- C8: `createBulk` of the empty list returns 0 without error, and
`createBulk` of N documents returns the number the store actually
inserted, which is at most N. -/
theorem claim8_createBulk_counts :
    (∀ (acceptable : Doc → Bool) (coll : Coll),
      createBulkM acceptable [] coll none = .ok (coll, 0)) ∧
      (∀ (acceptable : Doc → Bool) (items : List Doc) (coll : Coll),
        createBulkM acceptable items coll none =
            .ok (insertMany acceptable coll items) ∧
          (insertMany acceptable coll items).2 ≤ items.length) := by
  refine ⟨?_, ?_⟩
  · intro acceptable coll
    simp [createBulkM, insertMany]
  · intro acceptable items coll
    refine ⟨rfl, ?_⟩
    simpa [insertMany] using List.length_filter_le acceptable items

/-! Claim C2. -/

/-- C2 (amended): every `BaseRepository` method catches the failure of
its store call at the method boundary and re-throws it as a
RepositoryError wrapping the original cause; the subclass method
`OrganizationRepository.getNewOrganizationIdentifier`, however, has no
such boundary (see the counterexample). -/
theorem claim2_base_repository_wraps_store_failures (e : String) :
    (∀ (item : Doc) (coll : Coll),
      createM item coll (some e) = .error (.repository e)) ∧
      (∀ (acceptable : Doc → Bool) (items : List Doc) (coll : Coll),
        createBulkM acceptable items coll (some e) = .error (.repository e)) ∧
      (∀ (q : Query) (item : List (String × Value)) (create : Bool) (coll : Coll),
        updateM q item create coll (some e) = .error (.repository e)) ∧
      (∀ (q : Query) (coll : Coll),
        deleteOneM q coll (some e) = .error (.repository e)) ∧
      (∀ (q : Query) (coll : Coll),
        countM q coll (some e) = .error (.repository e)) ∧
      (∀ (pf : String) (asc : Bool) (pipelineOut : List Doc) (limit : Nat)
          (next previous : Option Cursor),
        aggregatePagingM (overriddenRepo pf asc) pipelineOut limit next previous
          (some e) = .error (.repository e)) ∧
      (∀ pipelineOut : List Doc,
        aggregateM pipelineOut (some e) = .error (.repository e)) ∧
      (∀ (k : String) (v : Value) (q : Query) (coll : Coll),
        existsM ((k, v) :: q) coll (some e) = (.error (.repository e), 1)) ∧
      (∀ (obj : Doc) (fields : List String) (coll : Coll),
        buildOrClauses obj fields ≠ [] →
          existsOrM obj fields coll (some e) = .error (.repository e)) ∧
      (∀ (field : String) (coll : Coll),
        distinctM field coll (some e) = .error (.repository e)) ∧
      (∀ (pf : String) (asc : Bool) (mt : String → Doc → Bool)
          (score : String → Doc → Int) (aq : APIQuery) (coll : Coll),
        searchM (overriddenRepo pf asc) mt score aq coll (some e) =
          .error (.repository e)) ∧
      (∀ (pf : String) (asc : Bool) (aq : APIQuery) (coll : Coll),
        findM (overriddenRepo pf asc) aq coll (some e) =
          .error (.repository e)) ∧
      (∀ (aq : APIQuery) (coll : Coll),
        findOneM aq coll (some e) = .error (.repository e)) ∧
      (∀ (q : Query) (u : String) (ts : Int) (coll : Coll),
        findOneOrCreateM q u ts coll (some e) = .error (.repository e)) := by
  refine ⟨fun _ _ => rfl, fun _ _ _ => rfl, fun _ _ _ _ => rfl, fun _ _ => rfl,
    fun _ _ => rfl, fun _ _ _ _ _ _ => rfl, fun _ => rfl, ?_, ?_,
    fun _ _ => rfl, fun _ _ _ _ _ _ => rfl, fun _ _ _ _ => rfl,
    fun _ _ => rfl, fun _ _ _ _ => rfl⟩
  · intro k v q coll
    simp [existsM]
  · intro obj fields coll hq
    have hlen : (buildOrClauses obj fields).length ≠ 0 := by
      simpa [List.length_eq_zero] using hq
    simp [existsOrM, hlen]

/-- C2 counterexample: a store failure in
`OrganizationRepository.getNewOrganizationIdentifier` is NOT re-thrown
as a RepositoryError — the raw store exception propagates past the
repository boundary (the method has no try/catch). -/
theorem claim2_counterexample_org_identifier_unwrapped :
    getNewOrganizationIdentifierM 0 (some "connection lost") =
        .error (.store "connection lost") ∧
      isWrappedAsRepositoryError
        (getNewOrganizationIdentifierM 0 (some "connection lost")) = false :=
  ⟨rfl, rfl⟩

/-- Witness for C2: concrete store failure, wrapped by the existsOR
boundary (the one conjunct with a hypothesis). -/
theorem claim2_witness :
    existsOrM [("owner", Value.str "0xabc")] ["owner"] [] (some "boom") =
      .error (.repository "boom") :=
  (claim2_base_repository_wraps_store_failures
    "boom").2.2.2.2.2.2.2.2.1 [("owner", Value.str "0xabc")] ["owner"] []
    (by decide)

/-! Claim C3. -/

/-- C3: `exists` with an empty query mapping throws a RepositoryError
without executing any store query (the second component of `existsM`
counts executed store queries); with a non-empty query it returns true
iff at least one document of the collection matches. -/
theorem claim3_exists_empty_query_rejected (q : Query) (coll : Coll) :
    (q = [] → ∀ fail : Option String,
      existsM q coll fail =
        (.error (.repository "Invalid query for exists"), 0)) ∧
      (q ≠ [] →
        ∃ b : Bool,
          existsM q coll none = (.ok b, 1) ∧
            (b = true ↔ ∃ d ∈ coll, matchesQuery q d = true)) := by
  constructor
  · rintro rfl fail
    simp [existsM]
  · intro hq
    have hlen : ¬(q.map Prod.fst).length = 0 := by
      simpa [List.length_eq_zero] using hq
    have hstep : existsM q coll none =
        (.ok (decide
          (((coll.filter (fun d => matchesQuery q d)).take 1).length > 0)), 1) := by
      unfold existsM
      rw [if_neg hlen]
    refine ⟨_, hstep, ?_⟩
    simp only [decide_eq_true_eq]
    rw [List.length_take]
    constructor
    · intro h
      have hpos : 0 < (coll.filter (fun d => matchesQuery q d)).length := by
        omega
      obtain ⟨d, hd⟩ := List.length_pos_iff_exists_mem.mp hpos
      obtain ⟨hdc, hdm⟩ := List.mem_filter.mp hd
      exact ⟨d, hdc, hdm⟩
    · intro h
      obtain ⟨d, hdc, hdm⟩ := h
      have : d ∈ coll.filter (fun d => matchesQuery q d) :=
        List.mem_filter.mpr ⟨hdc, hdm⟩
      have hpos : 0 < (coll.filter (fun d => matchesQuery q d)).length :=
        List.length_pos_iff_exists_mem.mpr ⟨d, this⟩
      omega

/-- Witness for C3: the empty query is rejected with zero store
queries, and a singleton query finds its matching document. -/
theorem claim3_witness :
    (existsM [] ([[("x", Value.int 1)]] : Coll) none =
        (.error (.repository "Invalid query for exists"), 0)) ∧
      ∃ b : Bool,
        existsM [("x", Value.int 1)] ([[("x", Value.int 1)]] : Coll) none =
            (.ok b, 1) ∧
          (b = true ↔
            ∃ d ∈ ([[("x", Value.int 1)]] : Coll),
              matchesQuery [("x", Value.int 1)] d = true) :=
  ⟨(claim3_exists_empty_query_rejected [] [[("x", Value.int 1)]]).1 rfl none,
   (claim3_exists_empty_query_rejected [("x", Value.int 1)]
     [[("x", Value.int 1)]]).2 (by decide)⟩

/-! Claim C4. -/

theorem buildOrClauses_eq_filterMap (obj : Doc) (fields : List String) :
    buildOrClauses obj fields =
      fields.filterMap (fun f => (getField obj f).map (fun v => (f, v))) := by
  have aux : ∀ (fs : List String) (acc : List (String × Value)),
      fs.foldl
          (fun rv f =>
            match getField obj f with
            | some v => rv ++ [(f, v)]
            | none => rv)
          acc =
        acc ++ fs.filterMap (fun f => (getField obj f).map (fun v => (f, v))) := by
    intro fs
    induction fs with
    | nil => intro acc; simp
    | cons f rest ih =>
      intro acc
      cases hg : getField obj f with
      | some v => simp [List.foldl_cons, hg, ih, List.filterMap_cons]
      | none => simp [List.foldl_cons, hg, ih, List.filterMap_cons]
  simpa using aux fields []

theorem length_buildOrClauses (obj : Doc) (fields : List String) :
    (buildOrClauses obj fields).length =
      (fields.filter (fun f => (getField obj f).isSome)).length := by
  rw [buildOrClauses_eq_filterMap]
  induction fields with
  | nil => rfl
  | cons f rest ih =>
    cases hg : getField obj f with
    | some v => simp [List.filterMap_cons, List.filter_cons, hg, ih]
    | none => simp [List.filterMap_cons, List.filter_cons, hg, ih]

/-- C4: `existsOR` builds an OR-query with exactly one clause per
listed field present on `obj` (in listed order, each clause pairing the
field with its value on `obj`), throws a RepositoryError when no listed
field is present, and otherwise returns true iff at least one document
matches the OR-query. -/
theorem claim4_existsOR_clauses (obj : Doc) (fields : List String)
    (coll : Coll) :
    (buildOrClauses obj fields =
        fields.filterMap (fun f => (getField obj f).map (fun v => (f, v)))) ∧
      ((buildOrClauses obj fields).length =
        (fields.filter (fun f => (getField obj f).isSome)).length) ∧
      ((∀ f ∈ fields, getField obj f = none) → ∀ fail : Option String,
        existsOrM obj fields coll fail =
          .error (.repository "Invalid query for existsOR")) ∧
      (buildOrClauses obj fields ≠ [] →
        ∃ b : Bool,
          existsOrM obj fields coll none = .ok b ∧
            (b = true ↔
              ∃ d ∈ coll, matchesOr (buildOrClauses obj fields) d = true)) := by
  refine ⟨buildOrClauses_eq_filterMap obj fields,
    length_buildOrClauses obj fields, ?_, ?_⟩
  · intro habsent fail
    have hempty : buildOrClauses obj fields = [] := by
      rw [buildOrClauses_eq_filterMap]
      rw [List.filterMap_eq_nil_iff]
      intro f hf
      simp [habsent f hf]
    simp [existsOrM, hempty]
  · intro hq
    have hlen : ¬(buildOrClauses obj fields).length = 0 := by
      simpa [List.length_eq_zero] using hq
    have hstep : existsOrM obj fields coll none =
        .ok (decide (((coll.filter
          (fun d => matchesOr (buildOrClauses obj fields) d)).take 1).length
            > 0)) := by
      unfold existsOrM
      rw [if_neg hlen]
    refine ⟨_, hstep, ?_⟩
    simp only [decide_eq_true_eq]
    rw [List.length_take]
    constructor
    · intro h
      have hpos :
          0 < (coll.filter (fun d => matchesOr (buildOrClauses obj fields) d)).length := by
        omega
      obtain ⟨d, hd⟩ := List.length_pos_iff_exists_mem.mp hpos
      obtain ⟨hdc, hdm⟩ := List.mem_filter.mp hd
      exact ⟨d, hdc, hdm⟩
    · intro h
      obtain ⟨d, hdc, hdm⟩ := h
      have hmem : d ∈ coll.filter (fun d => matchesOr (buildOrClauses obj fields) d) :=
        List.mem_filter.mpr ⟨hdc, hdm⟩
      have hpos :
          0 < (coll.filter (fun d => matchesOr (buildOrClauses obj fields) d)).length :=
        List.length_pos_iff_exists_mem.mpr ⟨d, hmem⟩
      omega

/-- Witness for C4: an object carrying one of two listed fields yields
exactly one clause; an object carrying neither is rejected. -/
theorem claim4_witness :
    ((∀ f ∈ ["eventId", "assetId"],
        getField ([("other", Value.int 7)] : Doc) f = none) →
      ∀ fail : Option String,
        existsOrM [("other", Value.int 7)] ["eventId", "assetId"] [] fail =
          .error (.repository "Invalid query for existsOR")) ∧
      (existsOrM [("other", Value.int 7)] ["eventId", "assetId"] [] none =
        .error (.repository "Invalid query for existsOR")) ∧
      ∃ b : Bool,
        existsOrM [("eventId", Value.str "e1")] ["eventId", "assetId"]
            ([[("eventId", Value.str "e1")]] : Coll) none = .ok b ∧
          (b = true ↔
            ∃ d ∈ ([[("eventId", Value.str "e1")]] : Coll),
              matchesOr
                (buildOrClauses [("eventId", Value.str "e1")]
                  ["eventId", "assetId"]) d = true) :=
  ⟨(claim4_existsOR_clauses [("other", Value.int 7)] ["eventId", "assetId"]
      []).2.2.1,
   (claim4_existsOR_clauses [("other", Value.int 7)] ["eventId", "assetId"]
      []).2.2.1 (by decide) none,
   (claim4_existsOR_clauses [("eventId", Value.str "e1")]
      ["eventId", "assetId"] [[("eventId", Value.str "e1")]]).2.2.2
     (by decide)⟩

/-! Claim C10. -/

/-- C10: `find` passes no projection when `apiQuery.fields` is empty —
so the returned documents carry all their fields — and passes a
projection iff `fields` has at least one key; `findOne`, unlike `find`,
always passes `apiQuery.fields` as the projection, even when empty. -/
theorem claim10_projection_argument :
    (∀ fields : List String, findProjectionArg fields = none ↔ fields = []) ∧
      (∀ fields : List String, fields ≠ [] →
        findProjectionArg fields = some fields) ∧
      (∀ fields : List String, findOneProjectionArg fields = some fields) ∧
      (∀ d : Doc, applyProjOpt none d = d) ∧
      (∀ (pf : String) (asc : Bool) (aq : APIQuery) (coll : Coll)
          (r : MongoPagedResult),
        aq.fields = [] →
        findM (overriddenRepo pf asc) aq coll none = .ok r →
        ∀ d ∈ r.results, d ∈ coll) := by
  refine ⟨?_, ?_, fun _ => rfl, fun _ => rfl, ?_⟩
  · intro fields
    cases fields <;> simp [findProjectionArg]
  · intro fields hne
    cases fields with
    | nil => exact absurd rfl hne
    | cons f fs => simp [findProjectionArg]
  · intro pf asc aq coll r hf hok d hd
    have h2 : Except.ok (ε := Err)
        (mongoPagingFind coll aq.query (findProjectionArg aq.fields) pf asc
          aq.limit aq.next aq.previous) = .ok r := hok
    have hr := Except.ok.inj h2
    subst hr
    simp only [mongoPagingFind] at hd
    have hnone : findProjectionArg aq.fields = none := by
      rw [hf]
      rfl
    rw [hnone] at hd
    have hfid : applyProjOpt none = fun x => x := rfl
    rw [hfid] at hd
    simp only [List.map_id'] at hd
    have hd2 := (pageWindow_sublist (cursorKey pf) asc aq.limit aq.next
      aq.previous _).subset hd
    rw [mem_sortDocs] at hd2
    exact (List.mem_filter.mp hd2).1

/-- Witness for C10: with an empty fields spec, a found document is the
stored document itself, all fields intact. -/
theorem claim10_witness :
    [("createdOn", Value.int 1)] ∈ ([[("createdOn", Value.int 1)]] : Coll) :=
  claim10_projection_argument.2.2.2.2 "createdOn" true
    ⟨[], [], "", 5, none, none⟩ [[("createdOn", Value.int 1)]] _ rfl rfl
    [("createdOn", Value.int 1)] (by decide)

/-! Claims C6 and C9: the findOneAndUpdate-based operations. -/

theorem getField_append_of_none (l1 l2 : Doc) (k : String)
    (h : getField l1 k = none) : getField (l1 ++ l2) k = getField l2 k := by
  induction l1 with
  | nil => rfl
  | cons kv rest ih =>
    obtain ⟨k', v'⟩ := kv
    by_cases hk : k' = k
    · simp [getField, hk] at h
    · simp only [getField, if_neg hk] at h
      simp [getField, hk, ih h]

theorem matchesQuery_self_append (q : Query) (extra : Doc)
    (hnd : (q.map Prod.fst).Nodup) : matchesQuery q (q ++ extra) = true := by
  unfold matchesQuery
  rw [List.all_eq_true]
  intro kv hkv
  obtain ⟨k, v⟩ := kv
  simp only [decide_eq_true_eq]
  exact getField_append_left q extra k v (getField_of_mem_nodup q k v hkv hnd)

theorem setFields_creation_meta (q : Query) (u : String) (ts : Int)
    (hco : "createdOn" ∉ q.map Prod.fst) (hcb : "createdBy" ∉ q.map Prod.fst) :
    setFields [("createdOn", Value.int ts), ("createdBy", Value.str u)] q =
      q ++ [("createdOn", Value.int ts), ("createdBy", Value.str u)] := by
  show setFields [("createdBy", Value.str u)] (setField q "createdOn" (Value.int ts)) = _
  show setField (setField q "createdOn" (Value.int ts)) "createdBy" (Value.str u) = _
  rw [setField_append_of_none q "createdOn" (Value.int ts)
    (getField_eq_none_of_not_mem q _ hco)]
  rw [setField_append_of_none _ "createdBy" (Value.str u) ?_]
  · rw [List.append_assoc]
    rfl
  · rw [getField_append_of_none q _ _ (getField_eq_none_of_not_mem q _ hcb)]
    rfl

/-- C6: `findOneOrCreate` is idempotent for a fixed (well-formed) query:
a second call with the same query returns the same document and leaves
the collection — in particular `createdOn` — unchanged, whatever
timestamp the second call would have used; and the insert path adds
exactly the query's fields plus the creation metadata `createdOn` and
`createdBy`, while a call that finds an existing match modifies
nothing. -/
theorem claim6_findOneOrCreate_idempotent (q : Query) (u : String)
    (ts1 ts2 : Int) (coll : Coll)
    (hnd : (q.map Prod.fst).Nodup)
    (hco : "createdOn" ∉ q.map Prod.fst)
    (hcb : "createdBy" ∉ q.map Prod.fst) :
    (findOneOrCreatePure q u ts2 (findOneOrCreatePure q u ts1 coll).2).1 =
        (findOneOrCreatePure q u ts1 coll).1 ∧
      (findOneOrCreatePure q u ts2 (findOneOrCreatePure q u ts1 coll).2).2 =
        (findOneOrCreatePure q u ts1 coll).2 ∧
      ((findOneOrCreatePure q u ts2 (findOneOrCreatePure q u ts1 coll).2).1.bind
          (fun d => getField d "createdOn")) =
        ((findOneOrCreatePure q u ts1 coll).1.bind
          (fun d => getField d "createdOn")) ∧
      (coll.find? (fun d => matchesQuery q d) = none →
        (findOneOrCreatePure q u ts1 coll).2 =
          coll ++
            [q ++ [("createdOn", Value.int ts1), ("createdBy", Value.str u)]]) ∧
      (∀ d₀, coll.find? (fun d => matchesQuery q d) = some d₀ →
        (findOneOrCreatePure q u ts1 coll).1 = some d₀ ∧
          (findOneOrCreatePure q u ts1 coll).2 = coll) := by
  have hid : ∀ (fs : List (String × Value)) (x : Doc),
      (UpdateOp.setOnInsert fs).applyToExisting x = x := fun _ _ => rfl
  cases h : coll.find? (fun d => matchesQuery q d) with
  | some d =>
    have h1 : findOneOrCreatePure q u ts1 coll = (some d, coll) := by
      unfold findOneOrCreatePure findOneAndUpdatePure
      simp only [h, UpdateOp.applyToExisting]
      rw [updateFirstMatch_id _ _ (hid _)]
    have h2 : findOneOrCreatePure q u ts2 coll = (some d, coll) := by
      unfold findOneOrCreatePure findOneAndUpdatePure
      simp only [h, UpdateOp.applyToExisting]
      rw [updateFirstMatch_id _ _ (hid _)]
    rw [h1]
    refine ⟨by rw [h2], by rw [h2], by rw [h2], ?_, ?_⟩
    · intro habs
      exact Option.noConfusion habs
    · intro d₀ hd₀
      exact ⟨by rw [Option.some.inj hd₀], rfl⟩
  | none =>
    have hnew :
        (UpdateOp.setOnInsert
            [("createdOn", Value.int ts1),
              ("createdBy", Value.str u)]).applyOnInsert q =
          q ++ [("createdOn", Value.int ts1), ("createdBy", Value.str u)] := by
      show setFields [("createdOn", Value.int ts1), ("createdBy", Value.str u)] q = _
      exact setFields_creation_meta q u ts1 hco hcb
    have h1 : findOneOrCreatePure q u ts1 coll =
        (some (q ++ [("createdOn", Value.int ts1), ("createdBy", Value.str u)]),
         coll ++
           [q ++ [("createdOn", Value.int ts1), ("createdBy", Value.str u)]]) := by
      unfold findOneOrCreatePure findOneAndUpdatePure
      simp only [h, if_pos]
      rw [hnew]
    have hmatch :
        matchesQuery q
          (q ++ [("createdOn", Value.int ts1), ("createdBy", Value.str u)]) =
          true :=
      matchesQuery_self_append q _ hnd
    have hfind2 :
        ((coll ++
            [q ++ [("createdOn", Value.int ts1),
              ("createdBy", Value.str u)]]).find?
          (fun d => matchesQuery q d)) =
          some (q ++ [("createdOn", Value.int ts1), ("createdBy", Value.str u)]) := by
      rw [find?_append_none _ _ _ h]
      rw [List.find?_cons_of_pos _ hmatch]
    have h2 : findOneOrCreatePure q u ts2
        (coll ++
          [q ++ [("createdOn", Value.int ts1), ("createdBy", Value.str u)]]) =
        (some (q ++ [("createdOn", Value.int ts1), ("createdBy", Value.str u)]),
         coll ++
           [q ++ [("createdOn", Value.int ts1), ("createdBy", Value.str u)]]) := by
      unfold findOneOrCreatePure findOneAndUpdatePure
      simp only [hfind2, UpdateOp.applyToExisting]
      rw [updateFirstMatch_id _ _ (hid _)]
    rw [h1]
    refine ⟨by rw [h2], by rw [h2], by rw [h2], fun _ => rfl, ?_⟩
    intro d₀ hd₀
    exact Option.noConfusion hd₀

/-- Witness for C6: a fresh collection, query on `address`; the second
call returns the first call's document unchanged. -/
theorem claim6_witness :
    (findOneOrCreatePure [("address", Value.str "0xabc")] "admin" 7
          (findOneOrCreatePure [("address", Value.str "0xabc")] "admin" 5
            []).2).1 =
        (findOneOrCreatePure [("address", Value.str "0xabc")] "admin" 5 []).1 ∧
      (findOneOrCreatePure [("address", Value.str "0xabc")] "admin" 7
          (findOneOrCreatePure [("address", Value.str "0xabc")] "admin" 5
            []).2).2 =
        (findOneOrCreatePure [("address", Value.str "0xabc")] "admin" 5 []).2 :=
  ⟨(claim6_findOneOrCreate_idempotent [("address", Value.str "0xabc")] "admin"
      5 7 [] (by decide) (by decide) (by decide)).1,
   (claim6_findOneOrCreate_idempotent [("address", Value.str "0xabc")] "admin"
      5 7 [] (by decide) (by decide) (by decide)).2.1⟩

/-- C9: `update(query, item, create=true)` on a collection with no
matching document upserts a single new document carrying the query's
fields and item's fields and returns it; a second `update` with the
same query and another item modifies that same document in place —
setting exactly item's fields, leaving the others unchanged — without
creating a duplicate, and returns the post-update document. -/
theorem claim9_update_upsert_then_modify (q item item2 : List (String × Value))
    (coll : Coll)
    (hnone : coll.find? (fun d => matchesQuery q d) = none)
    (hndq : (q.map Prod.fst).Nodup)
    (hnditem : (item.map Prod.fst).Nodup)
    (hnditem2 : (item2.map Prod.fst).Nodup)
    (hdisj : ∀ k ∈ item.map Prod.fst, k ∉ q.map Prod.fst) :
    updatePure q item true coll =
        (some (setFields item q), coll ++ [setFields item q]) ∧
      (∀ kv ∈ q, getField (setFields item q) kv.1 = some kv.2) ∧
      (∀ kv ∈ item, getField (setFields item q) kv.1 = some kv.2) ∧
      updatePure q item2 true (coll ++ [setFields item q]) =
        (some (setFields item2 (setFields item q)),
         coll ++ [setFields item2 (setFields item q)]) ∧
      (coll ++ [setFields item2 (setFields item q)]).length =
        (coll ++ [setFields item q]).length ∧
      (∀ k, k ∉ item2.map Prod.fst →
        getField (setFields item2 (setFields item q)) k =
          getField (setFields item q) k) ∧
      (∀ kv ∈ item2, getField (setFields item2 (setFields item q)) kv.1 =
        some kv.2) := by
  have hq : ∀ kv ∈ q, getField (setFields item q) kv.1 = some kv.2 := by
    intro kv hkv
    obtain ⟨k, v⟩ := kv
    have hkq : k ∈ q.map Prod.fst := List.mem_map.mpr ⟨(k, v), hkv, rfl⟩
    have hki : k ∉ item.map Prod.fst := fun hk => hdisj k hk hkq
    rw [getField_setFields_not_mem item q k hki]
    exact getField_of_mem_nodup q k v hkv hndq
  have hmatch : matchesQuery q (setFields item q) = true := by
    unfold matchesQuery
    rw [List.all_eq_true]
    intro kv hkv
    simpa using hq kv hkv
  have h1 : updatePure q item true coll =
      (some (setFields item q), coll ++ [setFields item q]) := by
    unfold updatePure findOneAndUpdatePure
    simp only [hnone, if_pos]
    rfl
  have hfind2 : (coll ++ [setFields item q]).find?
      (fun d => matchesQuery q d) = some (setFields item q) := by
    rw [find?_append_none _ _ _ hnone]
    rw [List.find?_cons_of_pos _ hmatch]
  have h2 : updatePure q item2 true (coll ++ [setFields item q]) =
      (some (setFields item2 (setFields item q)),
       coll ++ [setFields item2 (setFields item q)]) := by
    unfold updatePure findOneAndUpdatePure
    simp only [hfind2, UpdateOp.applyToExisting]
    rw [updateFirstMatch_append_of_none _ _ _ _ hnone]
    simp [updateFirstMatch, hmatch, UpdateOp.applyToExisting]
  refine ⟨h1, hq, ?_, h2, by simp, ?_, ?_⟩
  · intro kv hkv
    obtain ⟨k, v⟩ := kv
    exact getField_setFields_mem item q k v hkv hnditem
  · intro k hk
    exact getField_setFields_not_mem item2 _ k hk
  · intro kv hkv
    obtain ⟨k, v⟩ := kv
    exact getField_setFields_mem item2 _ k v hkv hnditem2

/-- Witness for C9: the spec's own example — upsert on `address`, then
change `title` from X to Y without duplicating. -/
theorem claim9_witness :
    updatePure [("address", Value.str "0xabc")] [("title", Value.str "X")]
        true [] =
      (some (setFields [("title", Value.str "X")]
          [("address", Value.str "0xabc")]),
        [] ++ [setFields [("title", Value.str "X")]
          [("address", Value.str "0xabc")]]) ∧
      updatePure [("address", Value.str "0xabc")] [("title", Value.str "Y")]
          true
          ([] ++ [setFields [("title", Value.str "X")]
            [("address", Value.str "0xabc")]]) =
        (some (setFields [("title", Value.str "Y")]
            (setFields [("title", Value.str "X")]
              [("address", Value.str "0xabc")])),
          [] ++ [setFields [("title", Value.str "Y")]
            (setFields [("title", Value.str "X")]
              [("address", Value.str "0xabc")])]) :=
  ⟨(claim9_update_upsert_then_modify [("address", Value.str "0xabc")]
      [("title", Value.str "X")] [("title", Value.str "Y")] [] rfl (by decide)
      (by decide) (by decide) (by decide)).1,
   (claim9_update_upsert_then_modify [("address", Value.str "0xabc")]
      [("title", Value.str "X")] [("title", Value.str "Y")] [] rfl (by decide)
      (by decide) (by decide) (by decide)).2.2.2.1⟩

/-! Claim C1. -/

/-- C1 (amended): for every APIQuery with `limit = L` against a
repository with overridden pagination getters, `find` and
`aggregatePaging` return at most `L` results ordered by
`paginatedField` in the direction given by `paginatedAscending`;
`search` also returns at most `L` results, but ordered by descending
text-relevance score — the repository's search call does not pass
`paginatedField`/`paginatedAscending` to the pagination library. -/
theorem claim1_paged_operations_limit_and_order (pf : String) (asc : Bool)
    (aq : APIQuery) (coll : Coll) (pipelineOut : List Doc)
    (mt : String → Doc → Bool) (score : String → Doc → Int) :
    (∀ r : MongoPagedResult,
      findM (overriddenRepo pf asc) aq coll none = .ok r →
        r.results.length ≤ aq.limit ∧
          isSortedBy (docLeB pf asc) r.results = true) ∧
      (∀ r : MongoPagedResult,
        aggregatePagingM (overriddenRepo pf asc) pipelineOut aq.limit aq.next
            aq.previous none = .ok r →
          r.results.length ≤ aq.limit ∧
            isSortedBy (docLeB pf asc) r.results = true) ∧
      (∀ r : MongoPagedResult,
        searchM (overriddenRepo pf asc) mt score aq coll none = .ok r →
          r.results.length ≤ aq.limit ∧
            isSortedBy (scoreDescLeB (score aq.search)) r.results = true) := by
  refine ⟨?_, ?_, ?_⟩
  · intro r hok
    have h2 : Except.ok (ε := Err)
        (mongoPagingFind coll aq.query (findProjectionArg aq.fields) pf asc
          aq.limit aq.next aq.previous) = .ok r := hok
    rw [← Except.ok.inj h2]
    exact mongoPagingFind_spec coll aq.query (findProjectionArg aq.fields) pf
      asc aq.limit aq.next aq.previous
  · intro r hok
    have h2 : Except.ok (ε := Err)
        (mongoPagingAggregate pipelineOut pf asc aq.limit aq.next aq.previous)
          = .ok r := hok
    rw [← Except.ok.inj h2]
    exact mongoPagingAggregate_spec pipelineOut pf asc aq.limit aq.next
      aq.previous
  · intro r hok
    have h2 : Except.ok (ε := Err)
        (mongoPagingSearch (mt aq.search) (score aq.search) coll aq.query
          aq.limit aq.next aq.previous) = .ok r := hok
    rw [← Except.ok.inj h2]
    exact mongoPagingSearch_spec (mt aq.search) (score aq.search) coll aq.query
      aq.limit aq.next aq.previous

/-- Relevance score read off the document's `score` field, used by the
concrete counterexample collection. -/
def exampleScore (_term : String) (d : Doc) : Int :=
  match getField d "score" with
  | some (.int n) => n
  | _ => 0

/-- C1 counterexample: `search` does not order its results by the
repository's `paginatedField`.  With `paginatedField = "createdOn"`,
`paginatedAscending = true` and two documents whose relevance order is
the reverse of their `createdOn` order, search succeeds but returns the
results out of paginated-field order. -/
theorem claim1_counterexample_search_ignores_paginated_field :
    (searchM (overriddenRepo "createdOn" true) (fun _ _ => true) exampleScore
        ⟨[], [], "any", 2, none, none⟩
        [[("createdOn", Value.int 1), ("score", Value.int 5)],
          [("createdOn", Value.int 2), ("score", Value.int 10)]] none).map
        (fun r => isSortedBy (docLeB "createdOn" true) r.results) =
      .ok false := by
  rfl

/-- Witness for C1: a one-element collection with limit 1 satisfies both
the length bound and the paginated-field ordering for `find`. -/
theorem claim1_witness :
    (mongoPagingFind [[("createdOn", Value.int 1)]] []
          (findProjectionArg []) "createdOn" true 1 none none).results.length
        ≤ 1 ∧
      isSortedBy (docLeB "createdOn" true)
        (mongoPagingFind [[("createdOn", Value.int 1)]] []
          (findProjectionArg []) "createdOn" true 1 none none).results = true :=
  (claim1_paged_operations_limit_and_order "createdOn" true
    ⟨[], [], "", 1, none, none⟩ [[("createdOn", Value.int 1)]] []
    (fun _ _ => true) (fun _ _ => 0)).1 _ rfl

end AmbrosusRepo
